import Mathlib

/-!
Verification development for the request-execution core of a REST-client
application (modules `request.js`, `scripting.js`, `variable.js`,
`storage.js` of the web implementation).

The JavaScript code is shallowly embedded: module-level mutable state
(the variable store, the saved-script collection, the chosen transport)
is passed explicitly as function arguments; `fetch` and the response
body readers are modelled as an environment carrying their outcomes;
JavaScript exceptions are modelled with `Except`/`Option`; JS objects
are modelled as association lists over their own properties.  The
sandboxed user scripts (executed via `new Function` in the source) are
modelled by their observable behaviour: the log text they emit and
whether their returned promise rejects.
-/

/-- Model of a JavaScript (JSON-representable) value.  Numbers are
modelled as integers, which is adequate here: no claim involves
fractional numerics. -/
inductive JVal where
  | jnull : JVal
  | jbool : Bool → JVal
  | jnum : Int → JVal
  | jstr : String → JVal
  | jarr : List JVal → JVal
  | jobj : List (String × JVal) → JVal

/-- JavaScript truthiness of a value. -/
def jTruthy : JVal → Bool
  | JVal.jnull => false
  | JVal.jbool b => b
  | JVal.jnum n => decide (n ≠ 0)
  | JVal.jstr s => decide (s ≠ "")
  | JVal.jarr _ => true
  | JVal.jobj _ => true

/-- Truthiness of a possibly-absent property (`undefined` is falsy). -/
def jTruthyOpt : Option JVal → Bool
  | some v => jTruthy v
  | none => false

mutual

/-- JavaScript `String(value)` coercion.  Arrays stringify by joining
their elements with commas (`null` elements become the empty string);
plain objects stringify to `"[object Object]"`. -/
def jsToString : JVal → String
  | JVal.jnull => "null"
  | JVal.jbool b => if b then "true" else "false"
  | JVal.jnum n => toString n
  | JVal.jstr s => s
  | JVal.jarr xs => String.intercalate "," (jsToStringElems xs)
  | JVal.jobj _ => "[object Object]"

/-- Element-wise stringification used by array joining. -/
def jsToStringElems : List JVal → List String
  | [] => []
  | JVal.jnull :: xs => "" :: jsToStringElems xs
  | x :: xs => jsToString x :: jsToStringElems xs

end

/-- Own-property lookup on a JS object modelled as an association list. -/
def lookupField : List (String × JVal) → String → Option JVal
  | [], _ => none
  | p :: rest, k => if p.1 = k then some p.2 else lookupField rest k

/-- Property assignment on a JS object: replaces the first binding of
the key, or appends a new binding (JS objects keep insertion order). -/
def setField : List (String × JVal) → String → JVal → List (String × JVal)
  | [], k, v => [(k, v)]
  | p :: rest, k, v => if p.1 = k then (k, v) :: rest else p :: setField rest k v

/-- Own properties of a value when spread into an object literal; spreading
a primitive contributes no (relevant) properties. -/
def jFields : JVal → List (String × JVal)
  | JVal.jobj fs => fs
  | _ => []

/-- A JavaScript line terminator: the regexp metacharacter `.` does not
match these, so a `{{...}}` placeholder cannot span them. -/
def isLineTerm (c : Char) : Bool :=
  c = '\n' || c = '\r' || c = '\u2028' || c = '\u2029'

/-- Whitespace removed by JavaScript `String.prototype.trim` (ASCII
whitespace plus the common Unicode space characters that occur in
practice). -/
def jsWS (c : Char) : Bool :=
  c.isWhitespace || c = '\u000B' || c = '\u000C' || c = '\u00A0' ||
    c = '\uFEFF' || c = '\u2028' || c = '\u2029'

/-- Trim leading and trailing whitespace from a character list. -/
def trimChars (l : List Char) : List Char :=
  ((l.dropWhile jsWS).reverse.dropWhile jsWS).reverse

/-- Model of JS `.trim()` producing a string from a character list. -/
def jsTrim (l : List Char) : String :=
  String.mk (trimChars l)

/-- Model of JS `.trim()` on a string. -/
def jsTrimStr (s : String) : String :=
  jsTrim s.data

/-- Does the pattern occur at the head of the list? -/
def leadMatch : List Char → List Char → Bool
  | [], _ => true
  | _ :: _, [] => false
  | p :: ps, c :: cs => p = c && leadMatch ps cs

/-- Does the pattern occur contiguously anywhere in the list?
(model of JS `String.prototype.includes`). -/
def containsSeq (pat : List Char) : List Char → Bool
  | [] => leadMatch pat []
  | c :: rest => leadMatch pat (c :: rest) || containsSeq pat rest

/-- String-level contiguous containment (JS `includes`). -/
def strContains (pat s : String) : Bool :=
  containsSeq pat.data s.data

/-- Lazy scan of the regexp fragment `(.*?)\x7d\x7d` (the tail of the
template pattern): starting at the head of the list, find the shortest
run of non-line-terminator characters followed by two closing braces.
Returns the length of the captured run. -/
def findCapture : List Char → Option Nat
  | [] => none
  | c :: rest =>
    if c = '}' ∧ rest.head? = some '}' then some 0
    else if isLineTerm c then none
    else Option.map (fun n => n + 1) (findCapture rest)

/-- One fuel-indexed step list for the global replace: scan left to
right; at each `\x7b\x7b` try the lazy capture; on a match emit
`String(value)` when the trimmed name is defined and the original
matched text otherwise (replacements are not rescanned, as in JS
`replace`); on no match advance one character.  The fuel only makes the
recursion structural; every match consumes at least four characters, so
fuel equal to the input length is always enough. -/
def runTemplateF (vars : String → Option JVal) : Nat → List Char → List Char
  | _, [] => []
  | 0, l => l
  | Nat.succ fuel, c :: rest =>
    if c = '{' ∧ rest.head? = some '{' then
      match findCapture rest.tail with
      | some n =>
        (match vars (jsTrim (rest.tail.take n)) with
         | some v => (jsToString v).data
         | none => '{' :: '{' :: (rest.tail.take n ++ ['}', '}'])) ++
          runTemplateF vars fuel (rest.tail.drop (n + 2))
      | none => c :: runTemplateF vars fuel rest
    else c :: runTemplateF vars fuel rest

/-- Model of `templateString.replace(/\x7b\x7b(.*?)\x7d\x7d/g, cb)`
from `applyTemplate`. -/
def runTemplate (vars : String → Option JVal) (l : List Char) : List Char :=
  runTemplateF vars l.length l

/-- Core of `applyTemplate` on a (non-null) string, with the flattened
variable mapping supplied explicitly. -/
def applyTemplateStr (vars : String → Option JVal) (s : String) : String :=
  String.mk (runTemplate vars s.data)

/-- Model of `applyTemplate(templateString, activeGroup)` from
`request.js`: a falsy input (`null`, or the empty string, modelled as
`Option.none` and `some ""`) is returned unchanged; otherwise every
placeholder is substituted using the flattened variables of the active
group.  The module-level `variableStore` is passed explicitly. -/
def applyTemplate (flat : String → Option JVal) (templateString : Option String) :
    Option String :=
  match templateString with
  | none => none
  | some s => if s = "" then some "" else some (applyTemplateStr flat s)

/-- The module-level `variableStore` object: group name to group value
(a well-formed store maps every group to an object of strings). -/
abbrev VarStoreObj := List (String × JVal)

/-- Model of `getFlattenedVariables(activeGroup)` from `variable.js`:
spread of the global group (or `\x7b\x7d` when falsy) overlaid by the
active group when it differs from `"global"` and is truthy; the active
group wins on key collision. -/
def getFlattenedVariables (store : VarStoreObj) (activeGroup : String) :
    String → Option JVal :=
  let globalFields :=
    match lookupField store "global" with
    | some v => if jTruthy v then jFields v else []
    | none => []
  let activeFields :=
    if activeGroup ≠ "global" then
      match lookupField store activeGroup with
      | some v => if jTruthy v then jFields v else []
      | none => []
    else []
  fun k =>
    match lookupField activeFields k with
    | some v => some v
    | none => lookupField globalFields k

/-- Overlay of two mappings, the second winning on collision — the
specification's description of the flattened variable view. -/
def overlayMap (base over : String → Option JVal) : String → Option JVal :=
  fun k =>
    match over k with
    | some v => some v
    | none => base k

/-- The fields contributed by a named group of a store when spread
(falsy or absent group values contribute nothing). -/
def groupFields (store : VarStoreObj) (g : String) : List (String × JVal) :=
  match lookupField store g with
  | some v => if jTruthy v then jFields v else []
  | none => []

/-- Model of `setVariable(key, value)` from `variable.js`, taking the
store and active group explicitly: ensure the active group slot is an
object (a falsy slot is replaced by `\x7b\x7d`), then assign the
`String(value)` coercion of the value under the key.  Returns `none`
when the JS code would throw: assigning a property of a truthy
primitive group value (strict mode); a truthy array slot is likewise
out of the model. -/
def setVariable (store : VarStoreObj) (activeGroup key : String) (value : JVal) :
    Option VarStoreObj :=
  match lookupField store activeGroup with
  | none =>
    some (setField store activeGroup (JVal.jobj [(key, JVal.jstr (jsToString value))]))
  | some cur =>
    if jTruthy cur then
      match cur with
      | JVal.jobj gf =>
        some (setField store activeGroup
          (JVal.jobj (setField gf key (JVal.jstr (jsToString value)))))
      | _ => none
    else
      some (setField store activeGroup (JVal.jobj [(key, JVal.jstr (jsToString value))]))

/-- The migration test of `loadVariableStore` in `storage.js`:
`typeof data[key] !== 'object' || Array.isArray(data[key])` marks a key
as a non-group key; note that `typeof null === 'object'`, so a `null`
value counts as group-like. -/
def isGroupLike : JVal → Bool
  | JVal.jobj _ => true
  | JVal.jnull => true
  | _ => false

/-- Is every field value a string? -/
def isStrFields (fields : List (String × JVal)) : Bool :=
  fields.all fun p =>
    match p.2 with
    | JVal.jstr _ => true
    | _ => false

/-- Is the value an object all of whose values are strings (a single
variable group)? -/
def isGroupMap : JVal → Bool
  | JVal.jobj gf => isStrFields gf
  | _ => false

/-- The variable-store invariant of the specification: the store is an
object whose values are all string-valued objects, and the reserved
group `"global"` is present (with a truthy, hence object, value). -/
def wfStore : JVal → Bool
  | JVal.jobj fields =>
    fields.all (fun p => isGroupMap p.2) && jTruthyOpt (lookupField fields "global")
  | _ => false

/-- Body of `loadVariableStore` from `storage.js` applied to the parsed
JSON value: migrate an old flat-format store (some value is not
group-like) to `\x7bglobal: data\x7d`; otherwise ensure the `"global"`
group exists (a falsy slot is replaced by `\x7b\x7d`).  Non-object
roots end in the catch branch (`\x7bglobal: \x7b\x7d\x7d`), except that
a non-empty string root migrates like a flat store; array roots (whose
JS result, an array with an expando property, is not representable
here) are mapped to the catch default and are outside the model. -/
def loadCore : JVal → JVal
  | JVal.jobj fields =>
    if (! jTruthyOpt (lookupField fields "global")) && (! fields.isEmpty) &&
        fields.any (fun p => ! isGroupLike p.2) then
      JVal.jobj [("global", JVal.jobj fields)]
    else if ! jTruthyOpt (lookupField fields "global") then
      JVal.jobj (setField fields "global" (JVal.jobj []))
    else JVal.jobj fields
  | JVal.jstr s =>
    if s ≠ "" then JVal.jobj [("global", JVal.jstr s)]
    else JVal.jobj [("global", JVal.jobj [])]
  | _ => JVal.jobj [("global", JVal.jobj [])]

/-- Model of `loadVariableStore()` from `storage.js`; the input is the
parsed localStorage value (`none` when nothing is stored or parsing
threw, in which case the result is the catch/default store). -/
def loadVariableStore : Option JVal → JVal
  | none => loadCore (JVal.jobj [])
  | some v => loadCore v

/-- A JavaScript exception value: its `message` property (possibly the
empty string when absent or blank) and its `toString()` rendering. -/
structure JsErr where
  message : String
  asString : String
deriving DecidableEq

/-- The fallback chain `error?.message || error?.toString() || 'Unknown
error'` from `executeRequest`. -/
def jsErrMsg (e : JsErr) : String :=
  if e.message ≠ "" then e.message
  else if e.asString ≠ "" then e.asString
  else "Unknown error"

/-- Observable behaviour of a user script run in the `new Function`
sandbox: the log text it emits through the injected helpers before
finishing, and whether its (awaited) promise rejects with an error. -/
structure ScriptBehavior where
  logOutput : String
  outcome : Option JsErr

/-- A saved script record (`getAllScripts()` entry) with its code
abstracted to its sandbox behaviour. -/
structure ScriptRec where
  id : String
  behavior : ScriptBehavior

/-- Model of `executePreScript(preScriptId)` from `scripting.js`,
returning the RESOLVED value of the promise of this async function:
falsy id returns the empty string; unknown id returns the banner plus a
lookup-failure line; otherwise the banner, the script's log, and — when
the script throws — the sandbox-boundary error line. -/
def executePreScript (scripts : List ScriptRec) (preScriptId : Option String) : String :=
  match preScriptId with
  | none => ""
  | some pid =>
    let banner := "[Pre-Request Script]\n"
    match scripts.find? (fun s => s.id == pid) with
    | none => banner ++ "[Script Error] Pre-script with ID \"" ++ pid ++ "\" not found.\n"
    | some sc =>
      let out := banner ++ sc.behavior.logOutput
      match sc.behavior.outcome with
      | none => out
      | some e => out ++ "[Pre-Script Execution Error] " ++ e.asString ++ "\n"

/-- Status slot of the response object handed to the UI: a numeric HTTP
status, or the `"N/A"` sentinel of the synthetic error response. -/
inductive StatusV where
  | code : Nat → StatusV
  | na : StatusV
deriving DecidableEq

/-- View of the response object passed to `displayResponse` and to the
post-script (status, statusText, headers). -/
structure RespInfo where
  status : StatusV
  statusText : String
  headers : List (String × String)
deriving DecidableEq

/-- The parsed response body value: decoded JSON, text, or the
synthetic error body `\x7berror: message\x7d` built in the catch branch
of `executeRequest`. -/
inductive RespData where
  | jsonData : JVal → RespData
  | textData : String → RespData
  | errData : String → RespData

/-- Model of `executePostScript(postScriptId, response, responseData)`
from `scripting.js`, returning the RESOLVED value of the async
function's promise.  A falsy id yields the fixed string
`"No post-request script configured."`; an unknown id yields a
lookup-failure line; otherwise the script's log plus, when the script
throws, the sandbox-boundary error line. -/
def executePostScript (scripts : List ScriptRec) (postScriptId : Option String)
    (_response : RespInfo) (_responseData : RespData) : String :=
  match postScriptId with
  | none => "No post-request script configured."
  | some pid =>
    match scripts.find? (fun s => s.id == pid) with
    | none => "[Script Error] Saved script with ID \"" ++ pid ++ "\" not found.\n"
    | some sc =>
      let out := sc.behavior.logOutput
      match sc.behavior.outcome with
      | none => out
      | some e => out ++ "[Script Execution Error] " ++ e.asString ++ "\n"

/-- A transport (`fetch`) response together with the outcomes of its
single-read body decoders (`clone().json()` / `clone().text()`), the
two ways `executeRequest` may consume the body. -/
structure TransportResp where
  status : Nat
  statusText : String
  headers : List (String × String)
  jsonResult : Except JsErr JVal
  textResult : Except JsErr String

/-- The execution environment of one `executeRequest` invocation: the
outcome of the (single) transport call, and whether the Tauri native
transport was selected at module load. -/
structure FetchEnv where
  fetchResult : Except JsErr TransportResp
  isTauri : Bool

/-- ASCII-lowercase a string (header names are ASCII). -/
def lowerStr (s : String) : String :=
  String.mk (s.data.map Char.toLower)

/-- Model of `response.headers.get(name)`: case-insensitive lookup of
the first header with the given (lowercase) name. -/
def getHeader (hs : List (String × String)) (name : String) : Option String :=
  Option.map (fun p => p.2) (hs.find? (fun p => lowerStr p.1 == name))

/-- The parse-selection test of `executeRequest` step 3: the
content-type header is truthy and `includes('json')` or
`includes('javascript')` — a case-SENSITIVE substring test. -/
def shouldJson (resp : TransportResp) : Bool :=
  match getHeader resp.headers "content-type" with
  | some ct => strContains "json" ct || strContains "javascript" ct
  | none => false

/-- The body parse performed by `executeRequest` step 3 (on the cloned
response): JSON when `shouldJson`, text otherwise; a thrown decode
error propagates to the catch branch. -/
def chosenParse (resp : TransportResp) : Except JsErr RespData :=
  if shouldJson resp then Except.map RespData.jsonData resp.jsonResult
  else Except.map RespData.textData resp.textResult

/-- The value held by the `scriptOutput` variable of `executeRequest`:
either a string, or — because the async script runners are invoked
WITHOUT `await` — a pending promise, remembered here together with the
value it would resolve to. -/
inductive JSVal where
  | vstr : String → JSVal
  | vpromise : String → JSVal
deriving DecidableEq

/-- JavaScript string coercion of the `scriptOutput` value: a promise
has no custom `toString` and coerces to `"[object Promise]"`. -/
def jsCoerce : JSVal → String
  | JSVal.vstr s => s
  | JSVal.vpromise _ => "[object Promise]"

/-- The JS `+=` on `scriptOutput`: both operands are coerced to strings
and concatenated. -/
def jsAppend (a b : JSVal) : JSVal :=
  JSVal.vstr (jsCoerce a ++ jsCoerce b)

/-- One raw header row from the UI (`value` may be absent/null). -/
structure RawHeader where
  key : String
  value : Option String

/-- Property assignment on the string-valued `headers` object literal. -/
def objSetS : List (String × String) → String → String → List (String × String)
  | [], k, v => [(k, v)]
  | p :: rest, k, v => if p.1 = k then (k, v) :: rest else p :: objSetS rest k v

/-- The header-building loop of `executeRequest` step 1: rows with a
falsy (empty) key are skipped; for the rest, the TRIMMED RAW key — the
key is not template-resolved — is assigned the template-resolved value
(an absent value is treated as the empty string). -/
def processHeaders (flat : String → Option JVal) (hs : List RawHeader) :
    List (String × String) :=
  hs.foldl
    (fun m h =>
      if h.key ≠ "" then
        objSetS m (jsTrimStr h.key) (applyTemplateStr flat (h.value.getD ""))
      else m)
    []

/-- Instrumentation events recording the side calls `executeRequest`
makes, in order to state how often the transport is invoked and with
what arguments the script runners are called. -/
inductive ExecEvent where
  | fetchCall : String → String → ExecEvent
  | preScriptRun : String → ExecEvent
  | postScriptRun : RespData → String → ExecEvent

/-- Is the event a transport invocation? -/
def isFetchEvent : ExecEvent → Bool
  | ExecEvent.fetchCall _ _ => true
  | _ => false

/-- Number of transport invocations among the recorded events. -/
def countFetch (evs : List ExecEvent) : Nat :=
  (evs.filter isFetchEvent).length

/-- The `requestDetails` object assembled by `executeRequest`. -/
structure RequestDetails where
  method : String
  processedUrl : String
  headers : List (String × String)
  body : Option String

/-- The synthetic response object built in the catch branch of
`executeRequest`: status `"N/A"`, statusText `"Network Error"`, empty
headers. -/
def syntheticResp : RespInfo :=
  { status := StatusV.na, statusText := "Network Error", headers := [] }

/-- The view of a real transport response handed to the UI and to the
post-script. -/
def realView (r : TransportResp) : RespInfo :=
  { status := StatusV.code r.status, statusText := r.statusText, headers := r.headers }

/-- The error lines appended to `scriptOutput` in the catch branch of
`executeRequest`. -/
def execErrLines (env : FetchEnv) (e : JsErr) : String :=
  "[Execution Error] Network or Parsing failure: " ++ jsErrMsg e ++ "\n" ++
    "Using Tauri HTTP: " ++ (if env.isTauri then "true" else "false") ++ "\n"

/-- The arguments of the single `displayResponse(...)` call that ends
every `executeRequest` invocation (the delivered result), plus the
instrumentation events. -/
structure ExecOutcome where
  requestDetails : RequestDetails
  response : RespInfo
  responseData : RespData
  scriptOutput : JSVal
  processedUrl : String
  durationMs : Int
  events : List ExecEvent

/-- Model of `executeRequest` from `request.js`.  Module state (saved
scripts, variable store, transport selection) is explicit; `tStart` and
`tEnd` are the two `Date.now()` readings.  Faithful to the source, the
async script runners are called WITHOUT `await`: the pending promise is
stored in `scriptOutput` (later string-coerced by `+=`), and the
post-script runner is invoked only when fetch and body parse succeed.
The function is total: every invocation delivers a result object and no
exception escapes to the caller. -/
def executeRequest (scripts : List ScriptRec) (store : VarStoreObj) (env : FetchEnv)
    (tStart tEnd : Int) (rawUrl method : String) (rawHeaders : List RawHeader)
    (rawBody : Option String) (preScriptId postScriptId : Option String)
    (activeGroup : String) : ExecOutcome :=
  let preOut : Option String :=
    Option.map (fun pid => executePreScript scripts (some pid)) preScriptId
  let scriptOutput0 : JSVal :=
    match preOut with
    | some l => JSVal.vpromise l
    | none => JSVal.vstr ""
  let preEvents : List ExecEvent :=
    match preOut with
    | some l => [ExecEvent.preScriptRun l]
    | none => []
  let flat := getFlattenedVariables store activeGroup
  let processedUrl := applyTemplateStr flat rawUrl
  let processedBody : Option String :=
    if method ≠ "GET" ∧ method ≠ "HEAD" then applyTemplate flat rawBody else none
  let headers := processHeaders flat rawHeaders
  let requestDetails : RequestDetails :=
    { method := method, processedUrl := processedUrl, headers := headers,
      body := processedBody }
  let branch : RespInfo × RespData × JSVal × List ExecEvent :=
    match env.fetchResult with
    | Except.error e =>
      (syntheticResp, RespData.errData (jsErrMsg e),
        jsAppend scriptOutput0 (JSVal.vstr (execErrLines env e)), [])
    | Except.ok resp =>
      match chosenParse resp with
      | Except.error e =>
        (syntheticResp, RespData.errData (jsErrMsg e),
          jsAppend scriptOutput0 (JSVal.vstr (execErrLines env e)), [])
      | Except.ok rdata =>
        let postLog := executePostScript scripts postScriptId (realView resp) rdata
        (realView resp, rdata, jsAppend scriptOutput0 (JSVal.vpromise postLog),
          [ExecEvent.postScriptRun rdata postLog])
  { requestDetails := requestDetails
    response := branch.1
    responseData := branch.2.1
    scriptOutput := branch.2.2.1
    processedUrl := processedUrl
    durationMs := tEnd - tStart
    events := preEvents ++ ExecEvent.fetchCall processedUrl method :: branch.2.2.2 }

/-- Does the list contain two adjacent closing braces? -/
def hasCC : List Char → Bool
  | [] => false
  | c :: rest => if c = '}' ∧ rest.head? = some '}' then true else hasCC rest

/-- Does the list contain a (textual) `\x7b\x7b...\x7d\x7d` placeholder:
an opening brace pair with a closing brace pair somewhere after it? -/
def hasTag : List Char → Bool
  | [] => false
  | c :: rest =>
    if c = '{' ∧ rest.head? = some '{' ∧ hasCC rest.tail then true else hasTag rest

/-- A decomposition of a template string into literal runs and
placeholders, used to state the substitution specification. -/
inductive Seg where
  | lit : List Char → Seg
  | ph : List Char → Seg

/-- Well-formedness of one segment: literal runs contain no opening
brace; placeholder names contain no closing brace and no line
terminator. -/
def segWF : Seg → Bool
  | Seg.lit s => s.all (fun c => c ≠ '{')
  | Seg.ph n => n.all (fun c => c ≠ '}' && ! isLineTerm c)

/-- Well-formedness of a decomposition. -/
def wfSegs (segs : List Seg) : Bool :=
  segs.all segWF

/-- Render a decomposition back to its template text. -/
def renderSegs : List Seg → List Char
  | [] => []
  | Seg.lit s :: rest => s ++ renderSegs rest
  | Seg.ph n :: rest => '{' :: '{' :: (n ++ '}' :: '}' :: renderSegs rest)

/-- The specified substitution result: literals unchanged; a
placeholder becomes `String(value)` of the variable bound to its
trimmed name, or stays verbatim when the name is unbound. -/
def renderSub (vars : String → Option JVal) : List Seg → List Char
  | [] => []
  | Seg.lit s :: rest => s ++ renderSub vars rest
  | Seg.ph n :: rest =>
    (match vars (jsTrim n) with
     | some v => (jsToString v).data
     | none => '{' :: '{' :: (n ++ ['}', '}'])) ++ renderSub vars rest

/-- The claim's (case-insensitive) content-type test, for comparison
with the implemented case-sensitive `shouldJson`. -/
def shouldJsonCI (resp : TransportResp) : Bool :=
  match getHeader resp.headers "content-type" with
  | some ct => strContains "json" (lowerStr ct) || strContains "javascript" (lowerStr ct)
  | none => false

/-- Variable store of the group-precedence example in the claim:
global has `a = "1"`, `b = "2"`; prod has `a = "9"`. -/
def storeC7 : VarStoreObj :=
  [("global", JVal.jobj [("a", JVal.jstr "1"), ("b", JVal.jstr "2")]),
   ("prod", JVal.jobj [("a", JVal.jstr "9")])]

/-- Expected flattened view of `storeC7` for group `"prod"`. -/
def flatC7 : String → Option JVal :=
  fun k =>
    if k = "a" then some (JVal.jstr "9")
    else if k = "b" then some (JVal.jstr "2") else none

/-- Store binding the variable `h` to `"X"` in the global group. -/
def storeHX : VarStoreObj :=
  [("global", JVal.jobj [("h", JVal.jstr "X")])]

/-- The empty variable mapping. -/
def emptyVars : String → Option JVal := fun _ => none

/-- Mapping binding the name `"a\nb"` (which contains a line
terminator) to `"X"`. -/
def varsNL : String → Option JVal :=
  fun k => if k = "a\nb" then some (JVal.jstr "X") else none

/-- Mapping for the non-greedy examples: binds `a`, `b`, the combined
text `a\x7d\x7d\x7b\x7bb`, the dotted `user.name`, and the
single-closing-brace name `a\x7db`. -/
def varsNG : String → Option JVal :=
  fun k =>
    if k = "a" then some (JVal.jstr "1")
    else if k = "b" then some (JVal.jstr "2")
    else if k = "a\x7d\x7d\x7b\x7bb" then some (JVal.jstr "WRONG")
    else if k = "user.name" then some (JVal.jstr "Ada")
    else if k = "a\x7db" then some (JVal.jstr "Z")
    else none

/-- Mapping binding `k` to `"V"`, used by witnesses. -/
def varsW : String → Option JVal :=
  fun k => if k = "k" then some (JVal.jstr "V") else none

/-- A pre-script whose sandboxed execution throws `Error("boom")`
having produced no log of its own. -/
def preFailScript : ScriptRec :=
  { id := "pre1", behavior := { logOutput := "", outcome := some { message := "boom", asString := "Error: boom" } } }

/-- A post-script that logs one line and completes normally. -/
def postLogScript : ScriptRec :=
  { id := "post1", behavior := { logOutput := "[Log] hi\n", outcome := none } }

/-- A plain-text 200 response ("pong"); its JSON decoder would throw. -/
def respOkC : TransportResp :=
  { status := 200, statusText := "OK", headers := [("content-type", "text/plain")],
    jsonResult := Except.error { message := "Unexpected token", asString := "SyntaxError" },
    textResult := Except.ok "pong" }

/-- Environment whose transport call succeeds with `respOkC`. -/
def envOkC : FetchEnv :=
  { fetchResult := Except.ok respOkC, isTauri := false }

/-- A JSON 200 response whose content-type is upper-cased
(`application/JSON`); both decoders succeed. -/
def respCI : TransportResp :=
  { status := 200, statusText := "OK", headers := [("content-type", "application/JSON")],
    jsonResult := Except.ok (JVal.jobj [("ok", JVal.jbool true)]),
    textResult := Except.ok "rawtext" }

/-- Environment whose transport call fails with `Error("boom")`. -/
def envFailC : FetchEnv :=
  { fetchResult := Except.error { message := "boom", asString := "Error: boom" }, isTauri := false }

theorem leadMatch_append_self (p t : List Char) : leadMatch p (p ++ t) = true := by
  induction p with
  | nil => simp [leadMatch]
  | cons c cs ih => simp [leadMatch, ih]

theorem leadMatch_extend (p l t : List Char) (h : leadMatch p l = true) :
    leadMatch p (l ++ t) = true := by
  induction p generalizing l with
  | nil => simp [leadMatch]
  | cons c cs ih =>
    cases l with
    | nil => simp [leadMatch] at h
    | cons d ds =>
      simp [leadMatch, Bool.and_eq_true] at h ⊢
      exact ⟨h.1, ih ds h.2⟩

theorem containsSeq_of_lead (p l : List Char) (h : leadMatch p l = true) :
    containsSeq p l = true := by
  cases l with
  | nil => simpa [containsSeq] using h
  | cons c cs => simp [containsSeq, h]

theorem containsSeq_append_right (p s t : List Char) (h : containsSeq p t = true) :
    containsSeq p (s ++ t) = true := by
  induction s with
  | nil => simpa using h
  | cons c cs ih => simp [containsSeq, ih]

theorem containsSeq_append_left (p s t : List Char) (h : containsSeq p s = true) :
    containsSeq p (s ++ t) = true := by
  induction s with
  | nil =>
    simp [containsSeq] at h
    cases p with
    | nil => cases t with
      | nil => simp [containsSeq, leadMatch]
      | cons d ds => simp [containsSeq, leadMatch]
    | cons q qs => simp [leadMatch] at h
  | cons c cs ih =>
    simp only [containsSeq, Bool.or_eq_true] at h
    rcases h with h | h
    · simp only [List.cons_append, containsSeq, Bool.or_eq_true]
      exact Or.inl (leadMatch_extend _ _ _ h)
    · simp only [List.cons_append, containsSeq, Bool.or_eq_true]
      exact Or.inr (ih h)

theorem strContains_append_right (p s t : String) (h : strContains p t = true) :
    strContains p (s ++ t) = true := by
  unfold strContains at h ⊢
  rw [String.data_append]
  exact containsSeq_append_right _ _ _ h

theorem strContains_append_left (p s t : String) (h : strContains p s = true) :
    strContains p (s ++ t) = true := by
  unfold strContains at h ⊢
  rw [String.data_append]
  exact containsSeq_append_left _ _ _ h

theorem findCapture_hasCC (l : List Char) (n : Nat) (h : findCapture l = some n) :
    hasCC l = true := by
  induction l generalizing n with
  | nil => simp [findCapture] at h
  | cons c rest ih =>
    simp only [findCapture] at h
    by_cases h1 : c = '}' ∧ rest.head? = some '}'
    · simp [hasCC, h1]
    · rw [if_neg h1] at h
      by_cases h2 : isLineTerm c = true
      · simp [h2] at h
      · simp only [h2, if_false, Bool.false_eq_true] at h
        simp only [Option.map_eq_some'] at h
        obtain ⟨m, hm, _⟩ := h
        simp [hasCC, h1, ih m hm]

theorem takeAppendLen (l t : List Char) : (l ++ t).take l.length = l := by
  induction l with
  | nil => simp
  | cons c cs ih => simp [ih]

theorem dropAppendLen (l t : List Char) (k : Nat) :
    (l ++ t).drop (l.length + k) = t.drop k := by
  induction l with
  | nil => simp
  | cons c cs ih => simp [Nat.succ_add, ih]

theorem findCapture_boundary (m t : List Char)
    (hm : m.all (fun c => c ≠ '}' && ! isLineTerm c) = true) :
    findCapture (m ++ '}' :: '}' :: t) = some m.length := by
  induction m with
  | nil => simp [findCapture]
  | cons c m' ih =>
    simp only [List.all_cons, Bool.and_eq_true, decide_eq_true_eq, Bool.not_eq_true'] at hm
    obtain ⟨⟨hc, hlt⟩, hm'⟩ := hm
    simp only [List.cons_append, findCapture]
    rw [if_neg (fun h => hc h.1), hlt, if_neg (by simp)]
    simp only [List.append_eq]
    rw [ih hm']
    simp

theorem runTemplateF_fuelInv (vars : String → Option JVal) :
    ∀ (fuel fuel' : Nat) (l : List Char), l.length ≤ fuel → l.length ≤ fuel' →
    runTemplateF vars fuel l = runTemplateF vars fuel' l := by
  intro fuel
  induction fuel with
  | zero =>
    intro fuel' l h _
    have hl : l = [] := List.length_eq_zero.mp (Nat.le_zero.mp h)
    subst hl
    cases fuel' <;> rfl
  | succ f ih =>
    intro fuel' l h h'
    cases l with
    | nil => cases fuel' <;> rfl
    | cons c rest =>
      cases fuel' with
      | zero => simp at h'
      | succ f' =>
        have ht : rest.tail.length ≤ rest.length := by cases rest <;> simp
        simp only [List.length_cons] at h h'
        simp only [runTemplateF]
        by_cases h1 : c = '{' ∧ rest.head? = some '{'
        · simp only [if_pos h1]
          cases hfc : findCapture rest.tail with
          | some n =>
            simp only [hfc]
            congr 1
            apply ih
            · simp only [List.length_drop]; omega
            · simp only [List.length_drop]; omega
          | none =>
            simp only [hfc]
            congr 1
            apply ih <;> omega
        · simp only [if_neg h1]
          congr 1
          apply ih <;> omega

theorem runTemplate_cons (vars : String → Option JVal) (c : Char) (rest : List Char) :
    runTemplate vars (c :: rest) =
      if c = '{' ∧ rest.head? = some '{' then
        match findCapture rest.tail with
        | some n =>
          (match vars (jsTrim (rest.tail.take n)) with
           | some v => (jsToString v).data
           | none => '{' :: '{' :: (rest.tail.take n ++ ['}', '}'])) ++
            runTemplate vars (rest.tail.drop (n + 2))
        | none => c :: runTemplate vars rest
      else c :: runTemplate vars rest := by
  have ht : rest.tail.length ≤ rest.length := by cases rest <;> simp
  unfold runTemplate
  simp only [List.length_cons, runTemplateF]
  by_cases h1 : c = '{' ∧ rest.head? = some '{'
  · simp only [if_pos h1]
    cases hfc : findCapture rest.tail with
    | some n =>
      simp only [hfc]
      congr 1
      apply runTemplateF_fuelInv
      · simp only [List.length_drop]; omega
      · exact le_refl _
    | none => simp only [hfc]
  · simp only [if_neg h1]

theorem runTemplate_id (vars : String → Option JVal) (l : List Char)
    (h : hasTag l = false) : runTemplate vars l = l := by
  induction l with
  | nil => rfl
  | cons c rest ih =>
    have hrest : hasTag rest = false := by
      simp only [hasTag] at h
      split at h
      · simp at h
      · exact h
    rw [runTemplate_cons]
    by_cases h1 : c = '{' ∧ rest.head? = some '{'
    · rw [if_pos h1]
      cases hfc : findCapture rest.tail with
      | some n =>
        exfalso
        have hcc := findCapture_hasCC _ _ hfc
        simp [hasTag, h1.1, h1.2, hcc] at h
      | none => simp [hfc, ih hrest]
    · rw [if_neg h1]
      simp [ih hrest]

theorem runTemplate_lit (vars : String → Option JVal) (s l : List Char)
    (hs : s.all (fun c => c ≠ '{') = true) :
    runTemplate vars (s ++ l) = s ++ runTemplate vars l := by
  induction s with
  | nil => simp
  | cons c cs ih =>
    simp only [List.all_cons, Bool.and_eq_true, decide_eq_true_eq] at hs
    simp only [List.cons_append]
    rw [runTemplate_cons, if_neg (fun hh => hs.1 hh.1), ih hs.2]

theorem runTemplate_segs (vars : String → Option JVal) (segs : List Seg)
    (h : wfSegs segs = true) :
    runTemplate vars (renderSegs segs) = renderSub vars segs := by
  induction segs with
  | nil => rfl
  | cons sg rest ih =>
    simp only [wfSegs, List.all_cons, Bool.and_eq_true] at h
    obtain ⟨hsg, hrest⟩ := h
    have ih' := ih hrest
    cases sg with
    | lit s =>
      simp only [segWF] at hsg
      simp only [renderSegs, renderSub]
      rw [runTemplate_lit vars s _ hsg, ih']
    | ph n =>
      simp only [segWF] at hsg
      simp only [renderSegs, renderSub]
      rw [runTemplate_cons, if_pos ⟨rfl, rfl⟩]
      simp only [List.tail_cons]
      rw [findCapture_boundary n (renderSegs rest) hsg]
      have ht : (n ++ '}' :: '}' :: renderSegs rest).take n.length = n :=
        takeAppendLen n _
      have hd : (n ++ '}' :: '}' :: renderSegs rest).drop (n.length + 2) =
          renderSegs rest := by
        exact dropAppendLen n ('}' :: '}' :: renderSegs rest) 2
      simp only [ht, hd, ih']

theorem objSetS_mem (m : List (String × String)) (k v : String) (p : String × String)
    (h : p ∈ objSetS m k v) : p ∈ m ∨ p = (k, v) := by
  induction m with
  | nil => simpa [objSetS] using h
  | cons q rest ih =>
    simp only [objSetS] at h
    by_cases hq : q.1 = k
    · rw [if_pos hq] at h
      rcases List.mem_cons.mp h with h | h
      · exact Or.inr h
      · exact Or.inl (List.mem_cons_of_mem _ h)
    · rw [if_neg hq] at h
      rcases List.mem_cons.mp h with h | h
      · exact Or.inl (h ▸ List.mem_cons_self _ _)
      · rcases ih h with h | h
        · exact Or.inl (List.mem_cons_of_mem _ h)
        · exact Or.inr h

theorem processHeaders_fold_mem (flat : String → Option JVal) (hs : List RawHeader)
    (acc : List (String × String)) (p : String × String)
    (h : p ∈ hs.foldl
      (fun m hh =>
        if hh.key ≠ "" then
          objSetS m (jsTrimStr hh.key) (applyTemplateStr flat (hh.value.getD ""))
        else m) acc) :
    p ∈ acc ∨ ∃ hh ∈ hs, hh.key ≠ "" ∧
      p = (jsTrimStr hh.key, applyTemplateStr flat (hh.value.getD "")) := by
  induction hs generalizing acc with
  | nil => exact Or.inl (by simpa using h)
  | cons hh hs' ih =>
    simp only [List.foldl_cons] at h
    rcases ih _ h with h2 | ⟨g, hg, hgk, hgp⟩
    · by_cases hk : hh.key ≠ ""
      · rw [if_pos hk] at h2
        rcases objSetS_mem _ _ _ _ h2 with h3 | h3
        · exact Or.inl h3
        · exact Or.inr ⟨hh, List.mem_cons_self _ _, hk, h3⟩
      · rw [if_neg hk] at h2
        exact Or.inl h2
    · exact Or.inr ⟨g, List.mem_cons_of_mem _ hg, hgk, hgp⟩

theorem lookupField_mem (fs : List (String × JVal)) (k : String) (v : JVal)
    (h : lookupField fs k = some v) : (k, v) ∈ fs := by
  induction fs with
  | nil => simp [lookupField] at h
  | cons p rest ih =>
    simp only [lookupField] at h
    by_cases hp : p.1 = k
    · rw [if_pos hp] at h
      have hpv : p = (k, v) := by
        cases p
        simp_all
      exact hpv ▸ List.mem_cons_self _ _
    · rw [if_neg hp] at h
      exact List.mem_cons_of_mem _ (ih h)

theorem lookupField_setField_self (fs : List (String × JVal)) (k : String) (v : JVal) :
    lookupField (setField fs k v) k = some v := by
  induction fs with
  | nil => simp [setField, lookupField]
  | cons p rest ih =>
    simp only [setField]
    by_cases hp : p.1 = k
    · rw [if_pos hp]; simp [lookupField]
    · rw [if_neg hp]; simp [lookupField, hp, ih]

theorem lookupField_setField_ne (fs : List (String × JVal)) (k k2 : String) (v : JVal)
    (h : k ≠ k2) : lookupField (setField fs k v) k2 = lookupField fs k2 := by
  induction fs with
  | nil => simp [setField, lookupField, h]
  | cons p rest ih =>
    simp only [setField]
    by_cases hp : p.1 = k
    · rw [if_pos hp]
      simp [lookupField, h, hp]
    · rw [if_neg hp]
      simp [lookupField, ih]

theorem all_setField (fs : List (String × JVal)) (k : String) (v : JVal)
    (P : String × JVal → Bool) (hall : fs.all P = true) (hkv : P (k, v) = true) :
    (setField fs k v).all P = true := by
  induction fs with
  | nil => simp [setField, hkv]
  | cons p rest ih =>
    simp only [List.all_cons, Bool.and_eq_true] at hall
    simp only [setField]
    by_cases hp : p.1 = k
    · rw [if_pos hp]
      simp [hkv, hall.2]
    · rw [if_neg hp]
      simp [hall.1, ih hall.2]

/-- C6: for every template string and variable mapping, `applyTemplate`
replaces each matched placeholder whose trimmed captured name is bound
with `String(value)` and leaves placeholders with unbound names
verbatim (stated over all well-formed literal/placeholder
decompositions); every string with no placeholder substring is returned
unchanged; `applyTemplate` of the single unbound placeholder under the
empty mapping is unchanged; and null or empty input is returned
unchanged without throwing. -/
theorem applyTemplate_substitution_spec (vars : String → Option JVal) :
    (∀ s : String, hasTag s.data = false → applyTemplateStr vars s = s) ∧
    (∀ segs : List Seg, wfSegs segs = true →
      runTemplate vars (renderSegs segs) = renderSub vars segs) ∧
    applyTemplateStr emptyVars "\x7b\x7bmissing\x7d\x7d" = "\x7b\x7bmissing\x7d\x7d" ∧
    applyTemplate vars none = none ∧ applyTemplate vars (some "") = some "" := by
  refine ⟨?_, ?_, rfl, rfl, rfl⟩
  · intro s h
    unfold applyTemplateStr
    rw [runTemplate_id vars s.data h]
  · exact fun segs h => runTemplate_segs vars segs h

theorem applyTemplate_substitution_spec_witness :
    applyTemplateStr varsW "plain text" = "plain text" ∧
    runTemplate varsW (renderSegs [Seg.lit "a".data, Seg.ph "k".data, Seg.lit "b".data]) =
      renderSub varsW [Seg.lit "a".data, Seg.ph "k".data, Seg.lit "b".data] :=
  ⟨(applyTemplate_substitution_spec varsW).1 "plain text" (by decide),
   (applyTemplate_substitution_spec varsW).2.1 _ (by decide)⟩

/-- C10 counterexample: the captured name cannot contain a line
terminator (the regexp `.` does not match it), so a placeholder whose
name contains a newline is NOT matched even though its name contains no
closing brace pair and is bound in the mapping. -/
theorem applyTemplate_newline_name_not_matched :
    varsNL "a\nb" = some (JVal.jstr "X") ∧
    applyTemplateStr varsNL "\x7b\x7ba\nb\x7d\x7d" = "\x7b\x7ba\nb\x7d\x7d" ∧
    applyTemplateStr varsNL "\x7b\x7ba\nb\x7d\x7d" ≠ "X" :=
  ⟨rfl, rfl, by decide⟩

/-- C10 (amended): `applyTemplate` uses the non-greedy lazy pattern, so
every placeholder whose name contains no closing brace and no line
terminator is matched and substituted with `String(value)` of its
trimmed name's binding; adjacent placeholders substitute independently
(`\x7b\x7ba\x7d\x7d\x7b\x7bb\x7d\x7d` yields the two values
concatenated even though the combined inner text is itself bound);
names may contain dots and spaces (`\x7b\x7b user.name \x7d\x7d` is
looked up as `user.name`), and even a single closing brace. -/
theorem applyTemplate_nongreedy_names :
    (∀ (vars : String → Option JVal) (n : List Char) (v : JVal),
      n.all (fun c => c ≠ '}' && ! isLineTerm c) = true →
      vars (jsTrim n) = some v →
      runTemplate vars ('{' :: '{' :: (n ++ ['}', '}'])) = (jsToString v).data) ∧
    applyTemplateStr varsNG "\x7b\x7ba\x7d\x7d\x7b\x7bb\x7d\x7d" = "12" ∧
    varsNG "a\x7d\x7d\x7b\x7bb" = some (JVal.jstr "WRONG") ∧
    applyTemplateStr varsNG "\x7b\x7b user.name \x7d\x7d" = "Ada" ∧
    applyTemplateStr varsNG "\x7b\x7ba\x7db\x7d\x7d" = "Z" := by
  refine ⟨?_, rfl, rfl, rfl, rfl⟩
  · intro vars n v hn hv
    have hwf : wfSegs [Seg.ph n] = true := by
      simp only [wfSegs, List.all_cons, List.all_nil, Bool.and_true, segWF]
      exact hn
    have h2 := runTemplate_segs vars [Seg.ph n] hwf
    simp only [renderSegs, renderSub, hv, List.append_nil] at h2
    exact h2

theorem applyTemplate_nongreedy_names_witness :
    runTemplate varsW ('{' :: '{' :: ("k".data ++ ['}', '}'])) =
      (jsToString (JVal.jstr "V")).data :=
  applyTemplate_nongreedy_names.1 varsW "k".data (JVal.jstr "V") (by decide) rfl

/-- C7: the flattened variable view is the global group's mapping
overlaid by the active group's mapping with the active group winning;
for active group `"global"` it is exactly the global group's mapping
(empty when absent, no self-merge); and on the store
`\x7bglobal: \x7ba:"1", b:"2"\x7d, prod: \x7ba:"9"\x7d\x7d` the
flattened view for `"prod"` is `\x7ba:"9", b:"2"\x7d`. -/
theorem getFlattenedVariables_spec :
    (∀ (store : VarStoreObj) (g : String), g ≠ "global" →
      ∀ k, getFlattenedVariables store g k =
        overlayMap (fun k2 => lookupField (groupFields store "global") k2)
          (fun k2 => lookupField (groupFields store g) k2) k) ∧
    (∀ (store : VarStoreObj) (k : String),
      getFlattenedVariables store "global" k =
        lookupField (groupFields store "global") k) ∧
    (∀ k, getFlattenedVariables storeC7 "prod" k = flatC7 k) := by
  refine ⟨?_, ?_, ?_⟩
  · intro store g hg k
    simp [getFlattenedVariables, overlayMap, groupFields, hg]
  · intro store k
    simp [getFlattenedVariables, groupFields, lookupField]
  · intro k
    by_cases h1 : k = "a"
    · subst h1; rfl
    · by_cases h2 : k = "b"
      · subst h2; rfl
      · have e1 : ¬("a" = k) := fun h => h1 h.symm
        have e2 : ¬("b" = k) := fun h => h2 h.symm
        simp [getFlattenedVariables, storeC7, flatC7, lookupField, e1, e2, h1, h2]

theorem getFlattenedVariables_spec_witness :
    getFlattenedVariables storeC7 "prod" "a" =
      overlayMap (fun k2 => lookupField (groupFields storeC7 "global") k2)
        (fun k2 => lookupField (groupFields storeC7 "prod") k2) "a" :=
  getFlattenedVariables_spec.1 storeC7 "prod" (by decide) "a"

/-- C8 counterexample: with a falsy script id the POST-script runner
does not return the empty string — it returns the fixed string
`"No post-request script configured."` (the pre-script runner does
return the empty string). -/
theorem executePostScript_falsy_not_empty :
    executePostScript [] none syntheticResp (RespData.textData "") =
      "No post-request script configured." ∧
    ("No post-request script configured." : String) ≠ "" :=
  ⟨rfl, by decide⟩

theorem countFetch_executeRequest (scripts : List ScriptRec) (store : VarStoreObj)
    (env : FetchEnv) (t1 t2 : Int) (url m : String) (hs : List RawHeader)
    (b : Option String) (preId postId : Option String) (g : String) :
    countFetch (executeRequest scripts store env t1 t2 url m hs b preId postId
      g).events = 1 := by
  obtain ⟨fr, tau⟩ := env
  cases preId <;> cases fr <;>
    first
    | rfl
    | (rename_i resp
       cases hcp : chosenParse resp <;>
         simp [executeRequest, hcp, countFetch, List.filter, isFetchEvent])

/-- C8 (amended): with a falsy id the pre-script runner returns the
empty string and the post-script runner returns the fixed string
`"No post-request script configured."`; with an id that matches no
stored script each runner returns (never throws) a log string naming
the id and describing the lookup failure, and the pipeline continues as
if no script were configured: the transport is still invoked exactly
once. -/
theorem scriptRunner_lookup_spec (scripts : List ScriptRec) (resp : RespInfo)
    (rdata : RespData) (pid : String)
    (hmiss : scripts.find? (fun s => s.id == pid) = none) :
    executePreScript scripts none = "" ∧
    executePostScript scripts none resp rdata = "No post-request script configured." ∧
    executePreScript scripts (some pid) =
      "[Pre-Request Script]\n[Script Error] Pre-script with ID \"" ++ pid ++
        "\" not found.\n" ∧
    executePostScript scripts (some pid) resp rdata =
      "[Script Error] Saved script with ID \"" ++ pid ++ "\" not found.\n" ∧
    (∀ (store : VarStoreObj) (env : FetchEnv) (t1 t2 : Int) (url m : String)
      (hs : List RawHeader) (b : Option String) (g : String),
      countFetch (executeRequest scripts store env t1 t2 url m hs b (some pid) none
        g).events = 1) := by
  refine ⟨rfl, rfl, ?_, ?_, ?_⟩
  · simp only [executePreScript, hmiss]
    rfl
  · simp only [executePostScript, hmiss]
  · intro store env t1 t2 url m hs b g
    exact countFetch_executeRequest scripts store env t1 t2 url m hs b (some pid) none g

theorem scriptRunner_lookup_spec_witness :
    executePreScript [] none = "" ∧
    executePostScript [] none syntheticResp (RespData.textData "x") =
      "No post-request script configured." ∧
    executePreScript [] (some "zz") =
      "[Pre-Request Script]\n[Script Error] Pre-script with ID \"zz\" not found.\n" ∧
    executePostScript [] (some "zz") syntheticResp (RespData.textData "x") =
      "[Script Error] Saved script with ID \"zz\" not found.\n" ∧
    countFetch (executeRequest [] [] envFailC 0 1 "u" "GET" [] none (some "zz") none
      "global").events = 1 := by
  have h := scriptRunner_lookup_spec [] syntheticResp (RespData.textData "x") "zz" rfl
  exact ⟨h.1, h.2.1, h.2.2.1, h.2.2.2.1,
    h.2.2.2.2 [] envFailC 0 1 "u" "GET" [] none "global"⟩

theorem jsCoerce_jsAppend (a b : JSVal) : jsCoerce (jsAppend a b) = jsCoerce a ++ jsCoerce b :=
  rfl

theorem strContains_execErrLines (env : FetchEnv) (e : JsErr) :
    strContains "[Execution Error]" (execErrLines env e) = true := by
  unfold execErrLines
  apply strContains_append_left
  apply strContains_append_left
  apply strContains_append_left
  apply strContains_append_left
  apply strContains_append_left
  decide

theorem jsErrMsg_ne_empty (e : JsErr) : jsErrMsg e ≠ "" := by
  unfold jsErrMsg
  split_ifs with h1 h2
  · exact h1
  · exact h2
  · decide

/-- C1: whenever the transport call or the response-body parse throws,
`executeRequest` catches the exception and still delivers a
normally-shaped result: the response is the synthetic
`\x7bstatus: "N/A", statusText: "Network Error", headers: empty\x7d`
object, `responseData` is an error object carrying the (always
non-empty) error message, an `[Execution Error]` line is appended to
the script output log, and under a monotone clock the duration is
non-negative.  The model function is total, so no exception propagates
to the caller. -/
theorem executeRequest_failure_shape (scripts : List ScriptRec) (store : VarStoreObj)
    (env : FetchEnv) (tStart tEnd : Int) (rawUrl method : String)
    (rawHeaders : List RawHeader) (rawBody : Option String)
    (preScriptId postScriptId : Option String) (activeGroup : String) (e : JsErr)
    (hmono : tStart ≤ tEnd)
    (herr : env.fetchResult = Except.error e ∨
      ∃ resp, env.fetchResult = Except.ok resp ∧ chosenParse resp = Except.error e) :
    (executeRequest scripts store env tStart tEnd rawUrl method rawHeaders rawBody
      preScriptId postScriptId activeGroup).response = syntheticResp ∧
    (executeRequest scripts store env tStart tEnd rawUrl method rawHeaders rawBody
      preScriptId postScriptId activeGroup).responseData =
        RespData.errData (jsErrMsg e) ∧
    jsErrMsg e ≠ "" ∧
    strContains "[Execution Error]"
      (jsCoerce (executeRequest scripts store env tStart tEnd rawUrl method rawHeaders
        rawBody preScriptId postScriptId activeGroup).scriptOutput) = true ∧
    0 ≤ (executeRequest scripts store env tStart tEnd rawUrl method rawHeaders rawBody
      preScriptId postScriptId activeGroup).durationMs := by
  obtain ⟨fr, tau⟩ := env
  rcases herr with h | ⟨resp, hok, hparse⟩
  · replace h : fr = Except.error e := h
    subst h
    refine ⟨by simp [executeRequest], by simp [executeRequest], jsErrMsg_ne_empty e, ?_, ?_⟩
    · simp only [executeRequest, jsCoerce_jsAppend]
      apply strContains_append_right
      exact strContains_execErrLines _ e
    · simpa [executeRequest] using Int.sub_nonneg.mpr hmono
  · replace hok : fr = Except.ok resp := hok
    subst hok
    refine ⟨by simp [executeRequest, hparse], by simp [executeRequest, hparse],
      jsErrMsg_ne_empty e, ?_, ?_⟩
    · simp only [executeRequest, hparse, jsCoerce_jsAppend]
      apply strContains_append_right
      exact strContains_execErrLines _ e
    · simpa [executeRequest] using Int.sub_nonneg.mpr hmono

theorem executeRequest_failure_shape_witness :
    (executeRequest [] [] envFailC 0 5 "u" "GET" [] none none none "global").response =
      syntheticResp ∧
    (executeRequest [] [] envFailC 0 5 "u" "GET" [] none none none "global").responseData =
      RespData.errData (jsErrMsg { message := "boom", asString := "Error: boom" }) ∧
    jsErrMsg { message := "boom", asString := "Error: boom" } ≠ "" ∧
    strContains "[Execution Error]"
      (jsCoerce (executeRequest [] [] envFailC 0 5 "u" "GET" [] none none none
        "global").scriptOutput) = true ∧
    0 ≤ (executeRequest [] [] envFailC 0 5 "u" "GET" [] none none none
      "global").durationMs :=
  executeRequest_failure_shape [] [] envFailC 0 5 "u" "GET" [] none none none "global"
    { message := "boom", asString := "Error: boom" } (by decide) (Or.inl rfl)

theorem processHeaders_all_empty (flat : String → Option JVal) (hs : List RawHeader)
    (h : ∀ hh ∈ hs, hh.key = "") : processHeaders flat hs = [] := by
  unfold processHeaders
  induction hs with
  | nil => rfl
  | cons hh hs' ih =>
    simp only [List.foldl_cons]
    have hk : hh.key = "" := h hh (List.mem_cons_self _ _)
    rw [if_neg (by simp [hk])]
    exact ih (fun g hg => h g (List.mem_cons_of_mem _ hg))

/-- C4 counterexample: in the Templating step a header KEY is used
literally (trimmed) and is NOT resolved through the template engine —
even though the engine would resolve the same text — and a header whose
key is blank but non-empty is NOT dropped: it is kept under the
empty-string key. -/
theorem headers_key_not_templated :
    processHeaders (getFlattenedVariables storeHX "global")
      [{ key := "\x7b\x7bh\x7d\x7d", value := some "v" }] =
      [("\x7b\x7bh\x7d\x7d", "v")] ∧
    applyTemplateStr (getFlattenedVariables storeHX "global") "\x7b\x7bh\x7d\x7d" = "X" ∧
    ("\x7b\x7bh\x7d\x7d" : String) ≠ "X" ∧
    processHeaders (getFlattenedVariables storeHX "global")
      [{ key := " ", value := some "v" }] = [("", "v")] ∧
    (executeRequest [] storeHX envFailC 0 1 "u" "GET"
      [{ key := "\x7b\x7bh\x7d\x7d", value := some "v" }] none none none
      "global").requestDetails.headers = [("\x7b\x7bh\x7d\x7d", "v")] :=
  ⟨rfl, rfl, by decide, rfl, rfl⟩

/-- C4 (amended): in the Templating step the URL is resolved through
the template engine with the flattened variables of the active group;
the body is resolved only for methods other than GET and HEAD (null
otherwise); each header's VALUE (defaulting to the empty string) is
resolved through the template engine while its KEY is used literally
after trimming, without template resolution; and headers whose key is
empty (falsy) are dropped — blank-after-trim keys are kept under the
empty-string key. -/
theorem executeRequest_templating_step (scripts : List ScriptRec) (store : VarStoreObj)
    (env : FetchEnv) (tStart tEnd : Int) (rawUrl method : String)
    (rawHeaders : List RawHeader) (rawBody : Option String)
    (preScriptId postScriptId : Option String) (activeGroup : String) :
    (executeRequest scripts store env tStart tEnd rawUrl method rawHeaders rawBody
      preScriptId postScriptId activeGroup).requestDetails.processedUrl =
        applyTemplateStr (getFlattenedVariables store activeGroup) rawUrl ∧
    ((method = "GET" ∨ method = "HEAD") →
      (executeRequest scripts store env tStart tEnd rawUrl method rawHeaders rawBody
        preScriptId postScriptId activeGroup).requestDetails.body = none) ∧
    (¬(method = "GET" ∨ method = "HEAD") →
      (executeRequest scripts store env tStart tEnd rawUrl method rawHeaders rawBody
        preScriptId postScriptId activeGroup).requestDetails.body =
          applyTemplate (getFlattenedVariables store activeGroup) rawBody) ∧
    (∀ p ∈ (executeRequest scripts store env tStart tEnd rawUrl method rawHeaders rawBody
        preScriptId postScriptId activeGroup).requestDetails.headers,
      ∃ hh ∈ rawHeaders, hh.key ≠ "" ∧
        p = (jsTrimStr hh.key,
          applyTemplateStr (getFlattenedVariables store activeGroup)
            (hh.value.getD ""))) ∧
    ((∀ hh ∈ rawHeaders, hh.key = "") →
      (executeRequest scripts store env tStart tEnd rawUrl method rawHeaders rawBody
        preScriptId postScriptId activeGroup).requestDetails.headers = []) := by
  refine ⟨by simp [executeRequest], ?_, ?_, ?_, ?_⟩
  · intro hgh
    simp only [executeRequest]
    rcases hgh with h | h <;> simp [h]
  · intro hgh
    push_neg at hgh
    simp only [executeRequest]
    exact if_pos ⟨hgh.1, hgh.2⟩
  · intro p hp
    simp only [executeRequest] at hp
    unfold processHeaders at hp
    rcases processHeaders_fold_mem _ _ _ _ hp with h | h
    · simp at h
    · exact h
  · intro hall
    simp only [executeRequest]
    exact processHeaders_all_empty _ _ hall

theorem executeRequest_templating_step_witness :
    (executeRequest [] storeHX envFailC 0 1 "u" "GET" [] (some "b") none none
      "global").requestDetails.body = none ∧
    (executeRequest [] storeHX envFailC 0 1 "u" "POST" [] (some "b") none none
      "global").requestDetails.body =
      applyTemplate (getFlattenedVariables storeHX "global") (some "b") ∧
    (executeRequest [] storeHX envFailC 0 1 "u" "GET" [] none none none
      "global").requestDetails.headers = [] :=
  ⟨(executeRequest_templating_step [] storeHX envFailC 0 1 "u" "GET" [] (some "b")
      none none "global").2.1 (Or.inl rfl),
   (executeRequest_templating_step [] storeHX envFailC 0 1 "u" "POST" [] (some "b")
      none none "global").2.2.1 (by decide),
   (executeRequest_templating_step [] storeHX envFailC 0 1 "u" "GET" [] none
      none none "global").2.2.2.2 (by simp)⟩

/-- C5 counterexample: the content-type inspection is a CASE-SENSITIVE
substring test — a response declaring `application/JSON` is treated as
text even though a case-insensitive match would classify it as JSON. -/
theorem contentType_match_case_sensitive :
    shouldJson respCI = false ∧
    shouldJsonCI respCI = true ∧
    chosenParse respCI = Except.ok (RespData.textData "rawtext") ∧
    (executeRequest [] [] { fetchResult := Except.ok respCI, isTauri := false } 0 1 "u"
      "GET" [] none none none "global").responseData = RespData.textData "rawtext" :=
  ⟨rfl, rfl, rfl, rfl⟩

/-- C5 (amended): the executor inspects the content-type header value
with a CASE-SENSITIVE substring match — JSON parsing is chosen exactly
when the header is present and contains `json` or `javascript`
literally, otherwise the body is read as text — and the same decoded
value is both placed in the result's `responseData` and passed to the
post-script runner. -/
theorem executeRequest_parse_selection (scripts : List ScriptRec) (store : VarStoreObj)
    (env : FetchEnv) (tStart tEnd : Int) (rawUrl method : String)
    (rawHeaders : List RawHeader) (rawBody : Option String)
    (preScriptId postScriptId : Option String) (activeGroup : String)
    (resp : TransportResp) (rdata : RespData)
    (hok : env.fetchResult = Except.ok resp)
    (hp : chosenParse resp = Except.ok rdata) :
    (executeRequest scripts store env tStart tEnd rawUrl method rawHeaders rawBody
      preScriptId postScriptId activeGroup).responseData = rdata ∧
    ExecEvent.postScriptRun rdata
        (executePostScript scripts postScriptId (realView resp) rdata) ∈
      (executeRequest scripts store env tStart tEnd rawUrl method rawHeaders rawBody
        preScriptId postScriptId activeGroup).events ∧
    (shouldJson resp = true →
      ∃ v, resp.jsonResult = Except.ok v ∧ rdata = RespData.jsonData v) ∧
    (shouldJson resp = false →
      ∃ s, resp.textResult = Except.ok s ∧ rdata = RespData.textData s) ∧
    (shouldJson resp = true ↔
      ∃ ct, getHeader resp.headers "content-type" = some ct ∧
        (strContains "json" ct = true ∨ strContains "javascript" ct = true)) := by
  obtain ⟨fr, tau⟩ := env
  replace hok : fr = Except.ok resp := hok
  subst hok
  refine ⟨by simp [executeRequest, hp], ?_, ?_, ?_, ?_⟩
  · simp [executeRequest, hp, List.mem_append]
  · intro hsj
    unfold chosenParse at hp
    rw [if_pos hsj] at hp
    cases hj : resp.jsonResult with
    | error e => rw [hj] at hp; simp [Except.map] at hp
    | ok v =>
      rw [hj] at hp
      simp only [Except.map, Except.ok.injEq] at hp
      exact ⟨v, rfl, hp.symm⟩
  · intro hsj
    unfold chosenParse at hp
    rw [if_neg (by simp [hsj])] at hp
    cases hj : resp.textResult with
    | error e => rw [hj] at hp; simp [Except.map] at hp
    | ok s =>
      rw [hj] at hp
      simp only [Except.map, Except.ok.injEq] at hp
      exact ⟨s, rfl, hp.symm⟩
  · unfold shouldJson
    cases hget : getHeader resp.headers "content-type" with
    | none => simp
    | some ct => simp [Bool.or_eq_true]

theorem executeRequest_parse_selection_witness :
    (executeRequest [] [] envOkC 0 1 "u" "GET" [] none none none
      "global").responseData = RespData.textData "pong" ∧
    ExecEvent.postScriptRun (RespData.textData "pong")
        (executePostScript [] none (realView respOkC) (RespData.textData "pong")) ∈
      (executeRequest [] [] envOkC 0 1 "u" "GET" [] none none none "global").events :=
  ⟨(executeRequest_parse_selection [] [] envOkC 0 1 "u" "GET" [] none none none
      "global" respOkC (RespData.textData "pong") rfl rfl).1,
   (executeRequest_parse_selection [] [] envOkC 0 1 "u" "GET" [] none none none
      "global" respOkC (RespData.textData "pong") rfl rfl).2.1⟩

/-- C2 (code bug witnessed at a failing input): a throwing pre-script
IS caught at the sandbox boundary — the runner's resolved log contains
the `[Pre-Script Execution Error]` marker — and the transport is still
invoked exactly once with the real response delivered; but because
`executeRequest` never awaits the async runner, the pending promise is
string-coerced by `+=`, so the script output actually delivered to the
result callback is `"[object Promise][object Promise]"` and contains NO
error marker. -/
theorem executeRequest_preScript_log_dropped :
    countFetch (executeRequest [preFailScript] [] envOkC 0 5 "u" "GET" [] none
      (some "pre1") none "global").events = 1 ∧
    strContains "[Pre-Script Execution Error]"
      (executePreScript [preFailScript] (some "pre1")) = true ∧
    strContains "[Pre-Script Execution Error]"
      (jsCoerce (executeRequest [preFailScript] [] envOkC 0 5 "u" "GET" [] none
        (some "pre1") none "global").scriptOutput) = false ∧
    (executeRequest [preFailScript] [] envOkC 0 5 "u" "GET" [] none (some "pre1") none
      "global").response = realView respOkC ∧
    jsCoerce (executeRequest [preFailScript] [] envOkC 0 5 "u" "GET" [] none
      (some "pre1") none "global").scriptOutput =
      "[object Promise][object Promise]" :=
  ⟨rfl, rfl, rfl, rfl, rfl⟩

/-- C3 (code bug witnessed at a failing input): the post-script runner
is invoked with the response and the parsed body and its resolved log
is the script's log text, but `executeRequest` never awaits the
returned promise: instead of appending the log it appends the
string-coercion `"[object Promise]"`, so the delivered script output
does not contain the post-script's log. -/
theorem executeRequest_postScript_not_awaited :
    executePostScript [postLogScript] (some "post1") (realView respOkC)
      (RespData.textData "pong") = "[Log] hi\n" ∧
    (executeRequest [postLogScript] [] envOkC 0 5 "u" "GET" [] none none (some "post1")
      "global").scriptOutput = JSVal.vstr "[object Promise]" ∧
    strContains "[Log] hi"
      (jsCoerce (executeRequest [postLogScript] [] envOkC 0 5 "u" "GET" [] none none
        (some "post1") "global").scriptOutput) = false ∧
    ExecEvent.postScriptRun (RespData.textData "pong") "[Log] hi\n" ∈
      (executeRequest [postLogScript] [] envOkC 0 5 "u" "GET" [] none none (some "post1")
        "global").events := by
  refine ⟨rfl, rfl, rfl, ?_⟩
  have hev : (executeRequest [postLogScript] [] envOkC 0 5 "u" "GET" [] none none
      (some "post1") "global").events =
      [ExecEvent.fetchCall "u" "GET",
       ExecEvent.postScriptRun (RespData.textData "pong") "[Log] hi\n"] := rfl
  rw [hev]
  exact List.mem_cons_of_mem _ (List.mem_cons_self _ _)

theorem all_lookupField (fs : List (String × JVal)) (P : String × JVal → Bool)
    (k : String) (v : JVal) (hall : fs.all P = true) (h : lookupField fs k = some v) :
    P (k, v) = true :=
  List.all_eq_true.mp hall _ (lookupField_mem fs k v h)

theorem any_notGroupLike_false (fields : List (String × JVal))
    (hall : fields.all (fun p => isGroupMap p.2) = true) :
    fields.any (fun p => ! isGroupLike p.2) = false := by
  induction fields with
  | nil => rfl
  | cons p rest ih =>
    simp only [List.all_cons, Bool.and_eq_true] at hall
    have h1 : isGroupLike p.2 = true := by
      cases hp2 : p.2 <;> rw [hp2] at hall <;>
        first
        | rfl
        | simp [isGroupMap] at hall
    simp [List.any_cons, h1, ih hall.2]

/-- C9: the variable store maintains the invariant that the reserved
group `"global"` exists and every stored variable value is a string:
it holds for the default store; `loadVariableStore` returns any
invariant-satisfying store unchanged; loading establishes it for every
grouped store (the `"global"` group is created when absent) and for
every old flat-format store (migrated under `"global"`); and
`setVariable` preserves it while coercing the written value to a
string. -/
theorem variableStore_invariant :
    wfStore (loadVariableStore none) = true ∧
    (∀ v : JVal, wfStore v = true → loadVariableStore (some v) = v) ∧
    (∀ fields : List (String × JVal), fields.all (fun p => isGroupMap p.2) = true →
      wfStore (loadCore (JVal.jobj fields)) = true) ∧
    (∀ fields : List (String × JVal), isStrFields fields = true →
      lookupField fields "global" = none → fields ≠ [] →
      loadCore (JVal.jobj fields) = JVal.jobj [("global", JVal.jobj fields)] ∧
      wfStore (JVal.jobj [("global", JVal.jobj fields)]) = true) ∧
    (∀ (store : VarStoreObj) (ag key : String) (value : JVal),
      wfStore (JVal.jobj store) = true →
      ∃ store2, setVariable store ag key value = some store2 ∧
        wfStore (JVal.jobj store2) = true ∧
        ∃ gf, lookupField store2 ag = some (JVal.jobj gf) ∧
          lookupField gf key = some (JVal.jstr (jsToString value))) := by
  refine ⟨rfl, ?_, ?_, ?_, ?_⟩
  · intro v hv
    cases v with
    | jobj fields =>
      simp only [wfStore, Bool.and_eq_true] at hv
      simp [loadVariableStore, loadCore, hv.2]
    | jnull => simp [wfStore] at hv
    | jbool b => simp [wfStore] at hv
    | jnum n => simp [wfStore] at hv
    | jstr s => simp [wfStore] at hv
    | jarr xs => simp [wfStore] at hv
  · intro fields hall
    cases hg : lookupField fields "global" with
    | none =>
      have hany := any_notGroupLike_false fields hall
      simp only [loadCore, hg, jTruthyOpt, Bool.not_false, hany]
      simp only [Bool.and_false, Bool.false_eq_true, if_false, Bool.true_and,
        Bool.not_false, if_true]
      simp only [wfStore, Bool.and_eq_true]
      refine ⟨all_setField _ _ _ _ hall rfl, ?_⟩
      rw [lookupField_setField_self]
      rfl
    | some g =>
      have hmap : isGroupMap g = true := all_lookupField _ _ _ _ hall hg
      cases g with
      | jobj gf =>
        simp only [loadCore, hg, jTruthyOpt, jTruthy]
        simp only [Bool.not_true, Bool.false_and, Bool.false_eq_true, if_false,
          wfStore, Bool.and_eq_true]
        exact ⟨hall, by rw [hg]; rfl⟩
      | jnull => simp [isGroupMap] at hmap
      | jbool b => simp [isGroupMap] at hmap
      | jnum n => simp [isGroupMap] at hmap
      | jstr s => simp [isGroupMap] at hmap
      | jarr xs => simp [isGroupMap] at hmap
  · intro fields hstr hg hne
    cases fields with
    | nil => exact absurd rfl hne
    | cons p rest =>
      have h1 : isGroupLike p.2 = false := by
        simp only [isStrFields, List.all_cons, Bool.and_eq_true] at hstr
        cases hp2 : p.2 <;> rw [hp2] at hstr <;>
          first
          | rfl
          | simp at hstr
      constructor
      · simp only [loadCore, hg, jTruthyOpt, Bool.not_false, List.isEmpty_cons,
          Bool.not_false, List.any_cons, h1, Bool.not_false, Bool.true_or,
          Bool.true_and, Bool.and_true]
        simp
      · simp only [wfStore, List.all_cons, List.all_nil, Bool.and_true, isGroupMap,
          hstr, Bool.true_and, lookupField]
        rfl
  · intro store ag key value hwf
    simp only [wfStore, Bool.and_eq_true] at hwf
    obtain ⟨hall, hglob⟩ := hwf
    cases hcur : lookupField store ag with
    | none =>
      refine ⟨setField store ag (JVal.jobj [(key, JVal.jstr (jsToString value))]),
        by simp [setVariable, hcur], ?_, ?_⟩
      · simp only [wfStore, Bool.and_eq_true]
        refine ⟨all_setField _ _ _ _ hall rfl, ?_⟩
        by_cases hag : ag = "global"
        · subst hag
          rw [lookupField_setField_self]
          rfl
        · rw [lookupField_setField_ne _ _ _ _ hag]
          exact hglob
      · exact ⟨[(key, JVal.jstr (jsToString value))], lookupField_setField_self _ _ _,
          by simp [lookupField]⟩
    | some cur =>
      have hmap : isGroupMap cur = true := all_lookupField _ _ _ _ hall hcur
      cases cur with
      | jobj gf =>
        refine ⟨setField store ag
          (JVal.jobj (setField gf key (JVal.jstr (jsToString value)))), ?_, ?_, ?_⟩
        · simp [setVariable, hcur, jTruthy]
        · simp only [wfStore, Bool.and_eq_true]
          have hstr2 : isStrFields (setField gf key (JVal.jstr (jsToString value))) =
              true := by
            simp only [isGroupMap] at hmap
            unfold isStrFields at hmap ⊢
            exact all_setField _ _ _ _ hmap rfl
          refine ⟨all_setField _ _ _ _ hall (by simpa [isGroupMap] using hstr2), ?_⟩
          by_cases hag : ag = "global"
          · subst hag
            rw [lookupField_setField_self]
            rfl
          · rw [lookupField_setField_ne _ _ _ _ hag]
            exact hglob
        · exact ⟨setField gf key (JVal.jstr (jsToString value)),
            lookupField_setField_self _ _ _, lookupField_setField_self _ _ _⟩
      | jnull => simp [isGroupMap] at hmap
      | jbool b => simp [isGroupMap] at hmap
      | jnum n => simp [isGroupMap] at hmap
      | jstr s => simp [isGroupMap] at hmap
      | jarr xs => simp [isGroupMap] at hmap

theorem variableStore_invariant_witness :
    loadVariableStore (some (JVal.jobj [("global", JVal.jobj [("a", JVal.jstr "1")])])) =
      JVal.jobj [("global", JVal.jobj [("a", JVal.jstr "1")])] ∧
    wfStore (loadCore (JVal.jobj [("prod", JVal.jobj [("a", JVal.jstr "9")])])) = true ∧
    loadCore (JVal.jobj [("x", JVal.jstr "1")]) =
      JVal.jobj [("global", JVal.jobj [("x", JVal.jstr "1")])] :=
  ⟨variableStore_invariant.2.1 _ rfl,
   variableStore_invariant.2.2.1 _ rfl,
   (variableStore_invariant.2.2.2.1 [("x", JVal.jstr "1")] rfl rfl
     (List.cons_ne_nil _ _)).1⟩
